import Mathlib

/-!
Verification development for the `pendulum` repository (`pendulum/controller.py`).

The controllers are shallowly embedded over the reals:

* numpy arrays become functions `Fin n → ℝ`, matrices become `Matrix (Fin 4) (Fin 4) ℝ`
  or, for the variable-size Gram matrices of the GP model, functions `ℕ → ℕ → ℝ`
  together with an explicit size (the length of the training list);
* the `collections.deque` of prior observations becomes a `List (Fin 5 → ℝ)`
  (oldest entry first, `popleft` is `List.tail`, `append` adds at the right end);
* external library calls that the repository does not implement are handled as
  follows: `scipy.signal.cont2discrete` (zero-order hold) enters construction as
  an uninterpreted function parameter `Cont2Discrete`; the cvxpy/ECOS solve in
  `MPCController.policy` enters as the solver's outcome (`Option` of a primal
  point), and the theorems hypothesise that the outcome is an optimal point of
  the quadratic program the code formulates; `numpy.linalg.cholesky` and
  `numpy.linalg.solve` on the triangular factors are written out as the standard
  cholesky recursion and forward/backward substitution, their exact-arithmetic
  meaning;
* Python float division is division on `ℝ`, except that a division by zero
  raises `ZeroDivisionError` in Python: constructors whose bodies divide by a
  parameter are therefore `Option`-valued, returning `none` exactly when a
  denominator is the literal zero.
-/

noncomputable section

/-- Physical plant parameters `{M, m, l, g}` as read off the `pendulum` object
(cart mass, pendulum mass, pendulum length, gravity). -/
structure Pendulum where
  M : ℝ
  m : ℝ
  l : ℝ
  g : ℝ

/-- Continuous-time system matrix `A` built in `MPCController.__init__`
(controller.py lines 47–52). -/
def mpcContA (p : Pendulum) : Matrix (Fin 4) (Fin 4) ℝ :=
  Matrix.of
    ![![0, 1, 0, 0],
      ![0, 0, p.g * p.m / p.M, 0],
      ![0, 0, 0, 1],
      ![0, 0, p.g / p.l + p.g * p.m / (p.l * p.M), 0]]

/-- Continuous-time input matrix `B` built in `MPCController.__init__`
(controller.py lines 57–63).  The last entry is the Python expression
`1/pendulum.M*pendulum.l`, which parses as `(1/M)*l`. -/
def mpcContB (p : Pendulum) : Fin 4 → ℝ :=
  ![0, 1 / p.M, 0, 1 / p.M * p.l]

/-- Continuous-time system matrix `A` built in `MPCWithGPR.__init__`
(controller.py lines 156–160).  The last row's angle entry is the Python
expression `pend.g/pend.l + pend.g * pend.m/(pend.l*pend.m)`, whose denominator
uses `pend.m` (not `pend.M`). -/
def gprContA (p : Pendulum) : Matrix (Fin 4) (Fin 4) ℝ :=
  Matrix.of
    ![![0, 1, 0, 0],
      ![0, 0, p.g * p.m / p.M, 0],
      ![0, 0, 0, 1],
      ![0, 0, p.g / p.l + p.g * p.m / (p.l * p.m), 0]]

/-- Continuous-time input matrix `B` built in `MPCWithGPR.__init__`
(controller.py lines 161–165). -/
def gprContB (p : Pendulum) : Fin 4 → ℝ :=
  ![0, 1 / p.M, 0, 1 / (p.M * p.l)]

/-- The external `scipy.signal.cont2discrete(..., method='zoh')` call, as an
uninterpreted function from the continuous pair `(A, B)` and the timestep `dt`
to the discrete pair.  The repository does not implement it, so nothing is
assumed about it. -/
def Cont2Discrete : Type :=
  Matrix (Fin 4) (Fin 4) ℝ → (Fin 4 → ℝ) → ℝ → Matrix (Fin 4) (Fin 4) ℝ × (Fin 4 → ℝ)

/-- State of an `MPCController` object: the discretized model, horizon, input
bound, and the planned trajectory/input dumps overwritten by each `policy`
call (`none` models Python `None`; cvxpy sets `.value` to `None` when no
solution was found). -/
structure MPCController where
  pendulum : Pendulum
  setpoint : ℝ
  A : Matrix (Fin 4) (Fin 4) ℝ
  B : Fin 4 → ℝ
  T : ℕ
  u_max : ℝ
  planned_state : Option (ℕ → Fin 4 → ℝ)
  planned_u : Option (ℕ → ℝ)

/-- Embedding of `MPCController.__init__` (controller.py lines 39–87).  Returns `none`
exactly when a division in the matrix literals raises `ZeroDivisionError`
(denominators `M`, `l`, `l*M`); no other validation is performed. -/
noncomputable def MPCController.init (c2d : Cont2Discrete) (p : Pendulum)
    (T : ℕ) (dt u_max : ℝ) : Option MPCController :=
  if p.M = 0 ∨ p.l = 0 then none
  else
    some
      { pendulum := p
        setpoint := 0
        A := (c2d (mpcContA p) (mpcContB p) dt).1
        B := (c2d (mpcContA p) (mpcContB p) dt).2
        T := T
        u_max := u_max
        planned_state := none
        planned_u := none }

/-- The constraint list built by the loop in `MPCController.policy`
(controller.py lines 93–99): for each `t` in `range(T)` the dynamics equality
`x[:, t+1] == A @ x[:, t] + B @ u[:, t]` and the bound `abs(u[:, t]) <= u_max`,
followed by the initial condition `x[:, 0] == state`. -/
def mpcConstraints (c : MPCController) (state : Fin 4 → ℝ)
    (x : ℕ → Fin 4 → ℝ) (u : ℕ → ℝ) : List Prop :=
  ((List.range c.T).flatMap fun t =>
    [x (t + 1) = c.A.mulVec (x t) + u t • c.B, |u t| ≤ c.u_max]) ++
  [x 0 = state]

/-- The objective built in `MPCController.policy` (controller.py lines 97–98):
`sum_squares(x[2, T]) + 1e4 * sum_squares(u[0, T-1])`. -/
noncomputable def mpcCost (c : MPCController) (x : ℕ → Fin 4 → ℝ) (u : ℕ → ℝ) : ℝ :=
  (x c.T 2) ^ 2 + 1e4 * (u (c.T - 1)) ^ 2

/-- A primal point satisfies every constraint the code appended. -/
def MPCFeasible (c : MPCController) (state : Fin 4 → ℝ)
    (x : ℕ → Fin 4 → ℝ) (u : ℕ → ℝ) : Prop :=
  ∀ P ∈ mpcConstraints c state x u, P

/-- A primal point is optimal for the program the code formulates: feasible and
of minimal cost among feasible points.  This is what a successful
`problem.solve(solver='ECOS')` returns. -/
def MPCOptimal (c : MPCController) (state : Fin 4 → ℝ)
    (x : ℕ → Fin 4 → ℝ) (u : ℕ → ℝ) : Prop :=
  MPCFeasible c state x u ∧
    ∀ x' u', MPCFeasible c state x' u' → mpcCost c x u ≤ mpcCost c x' u'

/-- Embedding of `MPCController.policy` (controller.py lines 89–109), parametrised by the
solver outcome `sol` (the primal point cvxpy found, or `none` when the problem
was not solved, in which case every `.value` attribute is Python `None`).
The method returns `u[0,0].value` and overwrites `planned_state`/`planned_u`
with `x[:,:].value` and `u[0,:].value`. -/
def MPCController.policy (c : MPCController) (state : Fin 4 → ℝ)
    (sol : Option ((ℕ → Fin 4 → ℝ) × (ℕ → ℝ))) : Option ℝ × MPCController :=
  match sol with
  | none => (none, { c with planned_state := none, planned_u := none })
  | some s => (some (s.2 0), { c with planned_state := some s.1, planned_u := some s.2 })

/-- The quadratic program exactly as claim C1 words it. -/
def ClaimedMPCProblem (c : MPCController) (state : Fin 4 → ℝ)
    (x : ℕ → Fin 4 → ℝ) (u : ℕ → ℝ) : Prop :=
  (∀ k, k < c.T → x (k + 1) = c.A.mulVec (x k) + u k • c.B) ∧
  (∀ k, k < c.T → |u k| ≤ c.u_max) ∧
  x 0 = state

/-! ### The GP-augmented controller `MPCWithGPR` -/

/-- Squared euclidean distance (`scipy.spatial.distance` metric `sqeuclidean`). -/
def sqdist {n : ℕ} (a b : Fin n → ℝ) : ℝ :=
  ∑ i, (a i - b i) ^ 2

/-- Embedding of `MPCWithGPR.apply_kernel` (controller.py lines 227–236) on a list of
5-dimensional rows.  With `x2 = None` the code builds the condensed `pdist`
matrix, exponentiates (`exp(diff/lenscale * -0.5)`), expands it with
`squareform` (which puts `0` on the diagonal) and then overwrites the diagonal
with `1` via `fill_diagonal`; with a second argument it exponentiates the
rectangular `cdist` matrix.  Entries are given as a total function on `ℕ × ℕ`;
only indices below the list lengths correspond to entries of the numpy array. -/
def MPCWithGPR.apply_kernel (x1 : List (Fin 5 → ℝ)) (x2 : Option (List (Fin 5 → ℝ)))
    (lenscale : ℝ) : ℕ → ℕ → ℝ :=
  match x2 with
  | none => fun i j =>
      if i = j then 1
      else Real.exp (sqdist (x1.getD i 0) (x1.getD j 0) / lenscale * (-0.5))
  | some x2 => fun i j =>
      Real.exp (sqdist (x1.getD i 0) (x2.getD j 0) / lenscale * (-0.5))

/-- Embedding of `np.var` of a length-4 row (population variance, the numpy default
`ddof=0`): the mean of the squared deviations from the mean.  This is what
`np.var(y, axis=1)` computes for each sample row of `y`. -/
def npVar (v : Fin 4 → ℝ) : ℝ :=
  (∑ i, (v i - (∑ j, v j) / 4) ^ 2) / 4

/-- The regularized covariance matrix of `MPCWithGPR.create_prior_matr`
(controller.py lines 270–271): the kernel Gram matrix over `z` whose diagonal
entry `i` is incremented by `np.var(y, axis=1)[i] + 1e-9`, i.e. by the
variance of the `i`-th *sample row* of `y` taken over the output dimensions. -/
def regularizedK (z : List (Fin 5 → ℝ)) (y : List (Fin 4 → ℝ)) (l : ℝ) :
    ℕ → ℕ → ℝ :=
  fun i j =>
    if i = j then MPCWithGPR.apply_kernel z none l i j + npVar (y.getD i 0) + 1e-9
    else MPCWithGPR.apply_kernel z none l i j

/-- Embedding of `np.linalg.cholesky` in exact arithmetic: the standard column-by-column
recursion.  `chol A` is lower triangular; on the diagonal it takes the square
root of the pivot `A j j - ∑_{k<j} (chol A j k)²` and below the diagonal it
divides by the diagonal entry.  When every pivot is positive (the condition
under which `np.linalg.cholesky` succeeds instead of raising `LinAlgError`),
`chol A * (chol A)ᵀ` recovers `A` (theorem `chol_mul_transpose`). -/
def chol (A : ℕ → ℕ → ℝ) (i j : ℕ) : ℝ :=
  if i < j then 0
  else if i = j then
    Real.sqrt (A j j - ∑ k : Fin j, chol A j k ^ 2)
  else
    (A i j - ∑ k : Fin j, chol A i k * chol A j k) / chol A j j
termination_by i + j
decreasing_by
  · have := k.isLt; omega
  · have := k.isLt; omega
  · have := k.isLt; omega
  · omega

/-- The `j`-th pivot encountered by the cholesky recursion on `A`. -/
def cholPivot (A : ℕ → ℕ → ℝ) (j : ℕ) : ℝ :=
  A j j - ∑ k : Fin j, chol A j k ^ 2

/-- Embedding of `MPCWithGPR.create_prior_matr` (controller.py lines 264–273): cholesky
factor of the regularized kernel covariance matrix. -/
def MPCWithGPR.create_prior_matr (z : List (Fin 5 → ℝ)) (y : List (Fin 4 → ℝ))
    (l : ℝ) : ℕ → ℕ → ℝ :=
  chol (regularizedK z y l)

/-- Forward substitution: the unique solution of `L·w = b` for the lower
triangular cholesky factor, which is what `np.linalg.solve(L, b)` computes on
such a factor. -/
def fsub (L : ℕ → ℕ → ℝ) (b : ℕ → ℝ) (i : ℕ) : ℝ :=
  (b i - ∑ k : Fin i, L i k * fsub L b k) / L i i
termination_by i
decreasing_by
  have := k.isLt; omega

/-- Backward substitution on an `m × m` upper triangular matrix: the unique
solution of `U·w = b`, which is what `np.linalg.solve(L.T, b)` computes on the
transposed cholesky factor. -/
def bsub (m : ℕ) (U : ℕ → ℕ → ℝ) (b : ℕ → ℝ) (i : ℕ) : ℝ :=
  (b i - ∑ k : Fin (m - i - 1), U i (i + 1 + k) * bsub m U b (i + 1 + k)) / U i i
termination_by m - i
decreasing_by
  have := k.isLt; omega

/-- Embedding of `MPCWithGPR.make_prediction` (controller.py lines 275–301): GP posterior
mean and variance at the query point `z_new = x ++ [u]`, one independent model
per output dimension `a` of `y`, all sharing the factor `L`:
`alpha = solve(Lᵀ, solve(L, y[:,a]))`, `mu[0,a] = k(z_new, z)·alpha`,
`v = solve(L, k(z_new, z)ᵀ)`, `sigma[0,a] = k(z_new,z_new) - v·v`. -/
def MPCWithGPR.make_prediction (L : ℕ → ℕ → ℝ) (l : ℝ)
    (z : List (Fin 5 → ℝ)) (y : List (Fin 4 → ℝ)) (x : Fin 4 → ℝ) (u : ℝ) :
    (Fin 4 → ℝ) × (Fin 4 → ℝ) :=
  let m := z.length
  let z_new : Fin 5 → ℝ := Fin.snoc x u
  let z_star : ℕ → ℝ := fun j => MPCWithGPR.apply_kernel [z_new] (some z) l 0 j
  let mu : Fin 4 → ℝ := fun a =>
    let alpha := bsub m (fun i j => L j i) (fsub L (fun r => y.getD r 0 a))
    ∑ i ∈ Finset.range m, z_star i * alpha i
  let sigma : Fin 4 → ℝ := fun a =>
    let v := fsub L z_star
    MPCWithGPR.apply_kernel [z_new] (some [z_new]) l 0 0 -
      ∑ i ∈ Finset.range m, v i * v i
  (mu, sigma)

/-- The linear one-step map applied to a stored prior row
(controller.py line 181): `np.dot(xk1[:, :4], A) + np.dot(xk1[:, 4:5], B.T)`,
i.e. the state part of the row multiplied by `A` on the right, plus the action
component times `Bᵀ`. -/
def linRow (A : Matrix (Fin 4) (Fin 4) ℝ) (B : Fin 4 → ℝ) (row : Fin 5 → ℝ) :
    Fin 4 → ℝ :=
  fun j => Matrix.vecMul (Fin.init row) A j + row (Fin.last 4) * B j

/-- The diagnostics mapping `data` returned by `MPCWithGPR.policy`.  The numpy
values are `1 × 4` arrays (`np.atleast_2d` of the 4-state); the leading
singleton axis is dropped here. -/
structure GPRData where
  mu : Fin 4 → ℝ
  sigma : Fin 4 → ℝ
  lpred : Fin 4 → ℝ
  nlpred : Fin 4 → ℝ
  lpred_n : Fin 4 → ℝ
  nlpred_n : Fin 4 → ℝ
  zeros : Fin 4 → ℝ

/-- State of an `MPCWithGPR` object.  `M` is the `window` parameter, `priors`
the deque of `state ++ [action]` rows (oldest first).  Python only assigns
`self.prior_action` during the first `policy` call, but the only read of it is
in the steady phase, which a fresh controller reaches strictly after that
first call; it is initialised to `0` here, the value every call assigns. -/
structure MPCWithGPR where
  M : ℕ
  pend : Pendulum
  measure_n : ℕ
  lenscale : ℝ
  priors : List (Fin 5 → ℝ)
  A : Matrix (Fin 4) (Fin 4) ℝ
  B : Fin 4 → ℝ
  tick : ℕ
  prior_action : ℝ

/-- Embedding of `MPCWithGPR.__init__` (controller.py lines 143–171).  Returns `none`
exactly when a division in the matrix literals raises `ZeroDivisionError`
(denominators `M`, `l`, `l*m`, `M*l`); no other validation is performed. -/
def MPCWithGPR.init (c2d : Cont2Discrete) (p : Pendulum) (dt : ℝ)
    (measure_n window : ℕ) : Option MPCWithGPR :=
  if p.M = 0 ∨ p.l = 0 ∨ p.m = 0 then none
  else
    some
      { M := window
        pend := p
        measure_n := measure_n
        lenscale := 1
        priors := []
        A := (c2d (gprContA p) (gprContB p) dt).1
        B := (c2d (gprContA p) (gprContB p) dt).2
        tick := 0
        prior_action := 0 }

/-- One iteration of the `measure_n`-ahead loop in `MPCWithGPR.policy`
(controller.py lines 195–198).  The accumulator carries
`(lpred_n, nlpred_n, mu, sig)`: the linear forecast is advanced, the GP is
queried at the current corrected forecast `nlpred_n` (overwriting `mu`/`sig`),
and the corrected forecast is advanced and corrected by the new `mu`. -/
def gprAheadStep (L : ℕ → ℕ → ℝ) (lenscale : ℝ) (z : List (Fin 5 → ℝ))
    (y : List (Fin 4 → ℝ)) (A : Matrix (Fin 4) (Fin 4) ℝ) (prior_action : ℝ)
    (acc : (Fin 4 → ℝ) × (Fin 4 → ℝ) × (Fin 4 → ℝ) × (Fin 4 → ℝ)) :
    (Fin 4 → ℝ) × (Fin 4 → ℝ) × (Fin 4 → ℝ) × (Fin 4 → ℝ) :=
  let lpred_n := Matrix.vecMul acc.1 A
  let p := MPCWithGPR.make_prediction L lenscale z y acc.2.1 prior_action
  let nlpred_n := Matrix.vecMul acc.2.1 A - p.1
  (lpred_n, nlpred_n, p.1, p.2)

/-- Embedding of `MPCWithGPR.policy` (controller.py lines 173–225).  The steady phase
(`tick > M + 1`) first pops the oldest prior, builds the training pairs
`z = priors[:-1]`, `y = linear one-step prediction of z  −  priors[1:][:, :4]`,
factorises the regularized covariance, and assembles the diagnostics; the
warm-up phase returns all-zero diagnostics.  Both phases return action `0`,
append `state ++ [action]` to the priors and increment `tick`.  The unused
`t`/`dt` arguments of the Python signature are kept. -/
def MPCWithGPR.policy (c : MPCWithGPR) (state : Fin 4 → ℝ) (t dt : ℝ) :
    (ℝ × GPRData) × MPCWithGPR :=
  let data : GPRData :=
    if c.tick > c.M + 1 then
      let pr := c.priors.tail
      let xk1 := pr.dropLast
      let xk := pr.tail
      let y : List (Fin 4 → ℝ) :=
        List.zipWith (fun r1 r => linRow c.A c.B r1 - Fin.init r) xk1 xk
      let z := xk1
      let L := MPCWithGPR.create_prior_matr z y c.lenscale
      let ms := MPCWithGPR.make_prediction L c.lenscale z y state c.prior_action
      let lpred := Matrix.vecMul state c.A
      let nlpred := lpred - ms.1
      let r := (List.range c.measure_n).foldl
        (fun acc _ => gprAheadStep L c.lenscale z y c.A c.prior_action acc)
        (state, state, ms.1, ms.2)
      { mu := r.2.2.1, sigma := r.2.2.2, lpred := lpred, nlpred := nlpred,
        lpred_n := r.1, nlpred_n := r.2.1, zeros := 0 }
    else
      { mu := 0, sigma := 0, lpred := 0, nlpred := 0,
        lpred_n := 0, nlpred_n := 0, zeros := 0 }
  let action : ℝ := 0
  let priors' := (if c.tick > c.M + 1 then c.priors.tail else c.priors) ++
    [Fin.snoc state action]
  ((action, data),
   { c with priors := priors', tick := c.tick + 1, prior_action := action })

/-- Driving a controller through a sequence of states, one `policy` call per
state (the per-tick loop of the simulator), collecting the returned
action/diagnostics pairs. -/
def runGPR (c : MPCWithGPR) : List (Fin 4 → ℝ) → List (ℝ × GPRData) × MPCWithGPR
  | [] => ([], c)
  | s :: rest =>
    let r := c.policy s 0 0
    let rr := runGPR r.2 rest
    (r.1 :: rr.1, rr.2)

/-- Embedding of `MPCWithGPR.ll_loss` (controller.py lines 238–247).  Its first statement is
`K = self.apply_kernel(z, a=theta)`, but `apply_kernel` has parameters
`(x1, x2=None, lenscale=1)` and accepts no keyword `a`, so every call raises
`TypeError` before computing anything; the function never returns a value. -/
def MPCWithGPR.ll_loss (z : List (Fin 5 → ℝ)) (y : List (Fin 4 → ℝ)) (theta : ℝ) :
    Option ℝ :=
  none

/-- Embedding of `MPCWithGPR.optimize` (controller.py lines 249–262): runs
`scipy.optimize.minimize` (an external gradient-based search, modelled as the
uninterpreted parameter `minimizer`) on `obj_func = -ll_loss` from the initial
point `theta = 1`.  `minimize` begins by evaluating the objective at the
initial point, so a raising objective aborts the whole call. -/
def MPCWithGPR.optimize
    (minimizer : (ℝ → Option ℝ) → ℝ → Option ℝ)
    (z : List (Fin 5 → ℝ)) (y : List (Fin 4 → ℝ)) : Option ℝ :=
  (MPCWithGPR.ll_loss z y 1).bind fun _ =>
    minimizer (fun theta => (MPCWithGPR.ll_loss z y theta).map Neg.neg) 1

/-! ### Concrete inputs used by witnesses and counterexamples -/

/-- The spec's scenario parameters: `M=1, m=0.1, l=0.5, g=9.8`. -/
def p0 : Pendulum :=
  { M := 1, m := 1 / 10, l := 1 / 2, g := 49 / 5 }

/-- Physically invalid parameters: all masses/lengths negative. -/
def pNeg : Pendulum :=
  { M := -1, m := -(1 / 10), l := -(1 / 2), g := 49 / 5 }

/-- Valid parameters with `M = m = l = 1`. -/
def p1 : Pendulum :=
  { M := 1, m := 1, l := 1, g := 49 / 5 }

/-- A concrete stand-in for the external `cont2discrete` call (which the
repository does not implement): pass the continuous pair through. -/
def c2dId : Cont2Discrete := fun A B _ => (A, B)

/-- The zero state vector. -/
def st0 : Fin 4 → ℝ := 0

/-! ### C2 — the linearization matrices -/

/-- Claim C2, evaluation at the failing input `M=1, m=0.1, l=0.5, g=9.8`.
The claim says both controllers build the true linearization, with
`B = [0, 1/M, 0, 1/(M*l)]ᵀ` and `A[3][2] = g/l + g*m/(l*M)`, and that the two
controllers build identical matrices.  The code disagrees twice:
`MPCController.__init__` builds `B[3] = 1/pendulum.M*pendulum.l = (1/M)*l = 0.5`
instead of `1/(M*l) = 2`, and `MPCWithGPR.__init__` builds
`A[3][2] = g/l + g*m/(l*m) = 39.2` instead of `g/l + g*m/(l*M) = 21.56`;
consequently the two controllers' matrices also differ from each other. -/
theorem C2_linearization_slips :
    mpcContB p0 3 = 1 / 2 ∧
    (1 : ℝ) / (p0.M * p0.l) = 2 ∧
    gprContA p0 3 2 = 196 / 5 ∧
    p0.g / p0.l + p0.g * p0.m / (p0.l * p0.M) = 539 / 25 ∧
    mpcContA p0 3 2 = 539 / 25 ∧
    mpcContA p0 3 2 ≠ gprContA p0 3 2 ∧
    mpcContB p0 3 ≠ gprContB p0 3 := by
  have h1 : mpcContB p0 3 = 1 / (1 : ℝ) * (1 / 2) := rfl
  have h2 : gprContA p0 3 2 =
      (49 / 5 : ℝ) / (1 / 2) + (49 / 5) * (1 / 10) / ((1 / 2) * (1 / 10)) := rfl
  have h3 : mpcContA p0 3 2 =
      (49 / 5 : ℝ) / (1 / 2) + (49 / 5) * (1 / 10) / ((1 / 2) * 1) := rfl
  have h4 : gprContB p0 3 = 1 / ((1 : ℝ) * (1 / 2)) := rfl
  refine ⟨?_, ?_, ?_, ?_, ?_, ?_, ?_⟩
  · rw [h1]; norm_num
  · show (1 : ℝ) / ((1 : ℝ) * (1 / 2)) = 2; norm_num
  · rw [h2]; norm_num
  · show (49 / 5 : ℝ) / (1 / 2) + (49 / 5) * (1 / 10) / ((1 / 2) * 1) = 539 / 25
    norm_num
  · rw [h3]; norm_num
  · rw [h3, h2]; norm_num
  · rw [h1, h4]; norm_num

/-! ### C7 — construction performs no validation -/

/-- Claim C7 counterexample: with every mass/length negative and a negative
timestep, both constructions succeed (the claim says they must fail with an
invalid-physical-parameters error). -/
theorem C7_counterexample :
    (MPCController.init c2dId pNeg 20 (-(1 / 50)) 1000).isSome = true ∧
    (MPCWithGPR.init c2dId pNeg (-(1 / 50)) 10 8).isSome = true := by
  have hm : ¬ (pNeg.M = 0 ∨ pNeg.l = 0) := by
    simp only [pNeg]; push_neg; norm_num
  have hg : ¬ (pNeg.M = 0 ∨ pNeg.l = 0 ∨ pNeg.m = 0) := by
    simp only [pNeg]; push_neg; norm_num
  rw [MPCController.init, if_neg hm, MPCWithGPR.init, if_neg hg]
  exact ⟨rfl, rfl⟩

/-- Claim C7 amended: construction never checks signs (or `dt`); it fails —
with Python's `ZeroDivisionError`, not an invalid-parameter error — exactly
when a denominator of the matrix literals is zero: `M` or `l` for
`MPCController`, and `M`, `l` or `m` for `MPCWithGPR`.  Otherwise it succeeds,
whatever the signs of the parameters and the timestep. -/
theorem C7_no_validation (c2d : Cont2Discrete) (p : Pendulum) (T : ℕ)
    (dt u_max : ℝ) (mn w : ℕ) :
    ((MPCController.init c2d p T dt u_max).isSome ↔ p.M ≠ 0 ∧ p.l ≠ 0) ∧
    ((MPCWithGPR.init c2d p dt mn w).isSome ↔ p.M ≠ 0 ∧ p.l ≠ 0 ∧ p.m ≠ 0) := by
  constructor
  · by_cases h : p.M = 0 ∨ p.l = 0
    · rw [MPCController.init, if_pos h]
      simp only [Option.isSome_none, Bool.false_eq_true, false_iff, not_and_or]
      tauto
    · rw [MPCController.init, if_neg h]
      push_neg at h
      simpa using h
  · by_cases h : p.M = 0 ∨ p.l = 0 ∨ p.m = 0
    · rw [MPCWithGPR.init, if_pos h]
      simp only [Option.isSome_none, Bool.false_eq_true, false_iff, not_and_or]
      tauto
    · rw [MPCWithGPR.init, if_neg h]
      push_neg at h
      simpa using h

/-! ### C8 — infeasibility is not surfaced -/

/-- A concrete MPC controller state (horizon 1, tight input bound). -/
def cW : MPCController :=
  { pendulum := p0, setpoint := 0, A := 1, B := 0, T := 1, u_max := 5,
    planned_state := none, planned_u := none }

/-- Claim C8 counterexample: when the solve produces no primal point (the
infeasible case — cvxpy then leaves every `.value` attribute `None` and raises
nothing), `policy` returns `None` as the action.  The infeasibility is thus
*not* surfaced as a distinct solve-failure result; the caller receives a
silently absent action, which is exactly what the claim rules out. -/
theorem C8_counterexample :
    (MPCController.policy cW st0 none).1 = none := rfl

/-- Claim C8 amended: on an unsolved program, `policy` silently returns `None`
as the action and stores `None` planned trajectories; no distinct failure
value is produced. -/
theorem C8_silent_none (c : MPCController) (state : Fin 4 → ℝ) :
    (MPCController.policy c state none).1 = none ∧
    (MPCController.policy c state none).2.planned_state = none ∧
    (MPCController.policy c state none).2.planned_u = none :=
  ⟨rfl, rfl, rfl⟩

/-! ### C10 — `optimize` can never complete -/

/-- Claim C10, evaluation of the code: `ll_loss` raises `TypeError` on every
call (it invokes `apply_kernel(z, a=theta)`, a keyword `apply_kernel` does not
accept), hence `optimize` — whose objective is `-ll_loss` and whose first step
evaluates that objective at the initial `theta = 1` — never completes and
never returns a lenscale, for every training set. -/
theorem C10_optimize_never_completes
    (minimizer : (ℝ → Option ℝ) → ℝ → Option ℝ)
    (z : List (Fin 5 → ℝ)) (y : List (Fin 4 → ℝ)) (theta : ℝ) :
    MPCWithGPR.optimize minimizer z y = none ∧
    MPCWithGPR.ll_loss z y theta = none :=
  ⟨rfl, rfl⟩

/-! ### C3 — warm-up phase -/

/-- Claim C3: in the warm-up phase (`tick ≤ M + 1`) `policy` returns action `0`
and a diagnostics mapping whose every array (`mu`, `sigma`, `lpred`, `nlpred`,
`lpred_n`, `nlpred_n`, `zeros`) is exactly zero-valued with the shape of the
state, for every input state. -/
theorem C3_warmup_all_zero (c : MPCWithGPR) (state : Fin 4 → ℝ) (t dt : ℝ)
    (h : c.tick ≤ c.M + 1) :
    (c.policy state t dt).1.1 = 0 ∧
    (c.policy state t dt).1.2.mu = 0 ∧
    (c.policy state t dt).1.2.sigma = 0 ∧
    (c.policy state t dt).1.2.lpred = 0 ∧
    (c.policy state t dt).1.2.nlpred = 0 ∧
    (c.policy state t dt).1.2.lpred_n = 0 ∧
    (c.policy state t dt).1.2.nlpred_n = 0 ∧
    (c.policy state t dt).1.2.zeros = 0 := by
  have hc : ¬ c.M + 1 < c.tick := not_lt.mpr h
  simp [MPCWithGPR.policy, hc]

/-- A freshly constructed GP controller state (window `8`, `tick = 0`),
as `MPCWithGPR.init c2dId p1 1 10 8` produces it. -/
def cInit : MPCWithGPR :=
  { M := 8, pend := p1, measure_n := 10, lenscale := 1, priors := [],
    A := gprContA p1, B := gprContB p1, tick := 0, prior_action := 0 }

/-- The construction `MPCWithGPR.init c2dId p1 1 10 8` succeeds and yields
`cInit`. -/
theorem initGPR_concrete : MPCWithGPR.init c2dId p1 1 10 8 = some cInit := by
  have h : ¬ (p1.M = 0 ∨ p1.l = 0 ∨ p1.m = 0) := by
    simp only [p1]; push_neg; norm_num
  rw [MPCWithGPR.init, if_neg h]
  rfl

/-- Witness for C3: the freshly constructed controller (`tick = 0 ≤ 9`) on the
zero state. -/
theorem C3_warmup_all_zero_witness :
    (cInit.policy st0 0 0).1.1 = 0 ∧
    (cInit.policy st0 0 0).1.2.mu = 0 ∧
    (cInit.policy st0 0 0).1.2.sigma = 0 ∧
    (cInit.policy st0 0 0).1.2.lpred = 0 ∧
    (cInit.policy st0 0 0).1.2.nlpred = 0 ∧
    (cInit.policy st0 0 0).1.2.lpred_n = 0 ∧
    (cInit.policy st0 0 0).1.2.nlpred_n = 0 ∧
    (cInit.policy st0 0 0).1.2.zeros = 0 :=
  C3_warmup_all_zero cInit st0 0 0 (by norm_num [cInit])

/-! ### C4 — per-call bookkeeping -/

/-- Claim C4: every `policy` call — warm-up or steady — returns action `0`,
appends exactly one new entry `state ++ [0]` at the newest (right) end of the
sliding window (the rest of the window is the previous window, minus its
oldest entry in the steady phase), and increments `tick` by exactly `1`. -/
theorem C4_policy_bookkeeping (c : MPCWithGPR) (state : Fin 4 → ℝ) (t dt : ℝ) :
    (c.policy state t dt).1.1 = 0 ∧
    (c.policy state t dt).2.priors =
      (if c.tick > c.M + 1 then c.priors.tail else c.priors) ++
        [Fin.snoc state (0 : ℝ)] ∧
    (c.policy state t dt).2.tick = c.tick + 1 :=
  ⟨rfl, rfl, rfl⟩

/-! ### C9 — determinism of the GP controller -/

/-- Claim C9: two controllers constructed independently from identical
parameters and fed the identical sequence of states return identical actions
and identical diagnostics at every step.  Construction and `policy` are pure
functions of their inputs (the Python code reads no clock and no randomness),
so the two runs coincide. -/
theorem C9_two_run_determinism (c2d : Cont2Discrete) (p : Pendulum) (dt : ℝ)
    (measure_n window : ℕ) (c1 c2 : MPCWithGPR) (states : List (Fin 4 → ℝ))
    (h1 : MPCWithGPR.init c2d p dt measure_n window = some c1)
    (h2 : MPCWithGPR.init c2d p dt measure_n window = some c2) :
    runGPR c1 states = runGPR c2 states := by
  rw [h1] at h2
  injection h2 with h
  rw [h]

/-- Witness for C9: the concrete construction `initGPR_concrete`, run on a
one-state sequence. -/
theorem C9_two_run_determinism_witness :
    runGPR cInit [st0] = runGPR cInit [st0] :=
  C9_two_run_determinism c2dId p1 1 10 8 cInit cInit [st0]
    initGPR_concrete initGPR_concrete

/-! ### C5 — the sliding-window bound -/

/-- The length bookkeeping of one `policy` call. -/
theorem policy_priors_length (c : MPCWithGPR) (s : Fin 4 → ℝ) (t dt : ℝ) :
    (c.policy s t dt).2.priors.length =
      (if c.tick > c.M + 1 then c.priors.tail.length else c.priors.length) + 1 := by
  rcases lt_or_ge (c.M + 1) c.tick with h | h
  · simp [MPCWithGPR.policy, h]
  · have h' : ¬ c.M + 1 < c.tick := not_lt.mpr h
    simp [MPCWithGPR.policy, h']

/-- Window-length invariant: if the window is no longer than the tick count and
no longer than `M + 2`, both bounds persist through any run. -/
theorem runGPR_priors_length_le (states : List (Fin 4 → ℝ)) :
    ∀ c : MPCWithGPR, c.priors.length ≤ c.tick → c.priors.length ≤ c.M + 2 →
      (runGPR c states).2.priors.length ≤ (runGPR c states).2.M + 2 ∧
      (runGPR c states).2.priors.length ≤ (runGPR c states).2.tick := by
  induction states with
  | nil => intro c h1 h2; exact ⟨h2, h1⟩
  | cons s rest ih =>
    intro c h1 h2
    have hM : (c.policy s 0 0).2.M = c.M := rfl
    have htick : (c.policy s 0 0).2.tick = c.tick + 1 := rfl
    have hlen := policy_priors_length c s 0 0
    have htail : c.priors.tail.length = c.priors.length - 1 := List.length_tail _
    have hrun : runGPR c (s :: rest) = ((c.policy s 0 0).1 :: (runGPR (c.policy s 0 0).2 rest).1,
        (runGPR (c.policy s 0 0).2 rest).2) := rfl
    rw [hrun]
    apply ih
    · rw [hlen, htick]
      split <;> omega
    · rw [hlen, hM]
      rcases lt_or_ge (c.M + 1) c.tick with h | h
      · rw [if_pos h]; omega
      · rw [if_neg (not_lt.mpr h)]; omega

/-- Claim C5 amended: starting from a freshly constructed controller with
window parameter `M`, the sliding window never holds more than `M + 2` entries
after any call (not `M + 1` as claimed: the warm-up phase appends on `M + 2`
consecutive calls before the first eviction; each steady-phase call thereafter
evicts the oldest entry FIFO before appending, keeping the length at `M + 2`). -/
theorem C5_window_bound (c2d : Cont2Discrete) (p : Pendulum) (dt : ℝ)
    (measure_n window : ℕ) (c : MPCWithGPR)
    (h : MPCWithGPR.init c2d p dt measure_n window = some c)
    (states : List (Fin 4 → ℝ)) :
    (runGPR c states).2.priors.length ≤ c.M + 2 := by
  rw [MPCWithGPR.init] at h
  split at h
  · exact absurd h (by simp)
  · injection h with h
    subst h
    have hrun := runGPR_priors_length_le states
      { M := window, pend := p, measure_n := measure_n, lenscale := 1, priors := [],
        A := (c2d (gprContA p) (gprContB p) dt).1,
        B := (c2d (gprContA p) (gprContB p) dt).2, tick := 0, prior_action := 0 }
      (by simp) (by simp)
    have hM : ∀ sts (c' : MPCWithGPR), (runGPR c' sts).2.M = c'.M := by
      intro sts
      induction sts with
      | nil => intro c'; rfl
      | cons s rest ih => intro c'; exact ih (c'.policy s 0 0).2
    calc (runGPR _ states).2.priors.length ≤ (runGPR _ states).2.M + 2 := hrun.1
    _ = _ := by rw [hM]

/-- Witness for C5 (amended): the concrete construction, run on one state. -/
theorem C5_window_bound_witness :
    (runGPR cInit [st0]).2.priors.length ≤ cInit.M + 2 :=
  C5_window_bound c2dId p1 1 10 8 cInit initGPR_concrete [st0]

/-- A freshly constructed GP controller with window parameter `M = 0`,
as `MPCWithGPR.init c2dId p1 1 1 0` produces it. -/
def cM0 : MPCWithGPR :=
  { M := 0, pend := p1, measure_n := 1, lenscale := 1, priors := [],
    A := gprContA p1, B := gprContB p1, tick := 0, prior_action := 0 }

/-- Claim C5 counterexample: with window parameter `M = 0`, after two calls on
a freshly constructed controller the sliding window holds `2 > M + 1 = 1`
entries — both calls are warm-up calls (`tick = 0, 1 ≤ M + 1`), each appends
and nothing is evicted.  The claimed bound `M + 1` is violated. -/
theorem C5_counterexample :
    MPCWithGPR.init c2dId p1 1 1 0 = some cM0 ∧
    ¬ (runGPR cM0 [st0, st0]).2.priors.length ≤ cM0.M + 1 := by
  constructor
  · have h : ¬ (p1.M = 0 ∨ p1.l = 0 ∨ p1.m = 0) := by
      simp only [p1]; push_neg; norm_num
    rw [MPCWithGPR.init, if_neg h]
    rfl
  · have h1 : (runGPR cM0 [st0, st0]).2.priors.length = 2 := rfl
    rw [h1]
    norm_num [cM0]

/-! ### C1 — the quadratic program formulated by `MPCController.policy` -/

/-- The constraint list the loop builds is, as a whole, exactly the claimed
system: all dynamics equalities and input bounds for `k ∈ [0, T)` plus the
initial condition. -/
theorem mpcFeasible_iff (c : MPCController) (state : Fin 4 → ℝ)
    (x : ℕ → Fin 4 → ℝ) (u : ℕ → ℝ) :
    MPCFeasible c state x u ↔ ClaimedMPCProblem c state x u := by
  unfold MPCFeasible mpcConstraints ClaimedMPCProblem
  constructor
  · intro h
    refine ⟨?_, ?_, ?_⟩
    · intro k hk
      exact h _ (List.mem_append_left _
        (List.mem_flatMap.mpr ⟨k, List.mem_range.mpr hk, by simp⟩))
    · intro k hk
      exact h _ (List.mem_append_left _
        (List.mem_flatMap.mpr ⟨k, List.mem_range.mpr hk, by simp⟩))
    · exact h _ (List.mem_append_right _ (by simp))
  · rintro ⟨h1, h2, h3⟩ P hP
    rcases List.mem_append.mp hP with hP | hP
    · rcases List.mem_flatMap.mp hP with ⟨k, hk, hPk⟩
      have hk' := List.mem_range.mp hk
      simp only [List.mem_cons, List.mem_singleton, List.not_mem_nil, or_false] at hPk
      rcases hPk with rfl | rfl
      · exact h1 k hk'
      · exact h2 k hk'
    · simp only [List.mem_singleton] at hP
      subst hP
      exact h3

/-- Claim C1: for every state, horizon `T ≥ 1` and bound `u_max`, the program
`policy` formulates has exactly the claimed feasible set (dynamics equalities
`x[k+1] = A x[k] + B u[k]` and `|u[k]| ≤ u_max` for `k ∈ [0,T)`, and
`x[0] = state`) and exactly the claimed objective
`(x[T] angle component)² + 1e4·(u[T-1])²`; and when the external solve yields
an optimal point `(x, u)` of that program, `policy` returns its first input
`u[0]` as the action and stores the full planned state trajectory and input
sequence on the controller. -/
theorem C1_policy_qp (c : MPCController) (state : Fin 4 → ℝ)
    (x : ℕ → Fin 4 → ℝ) (u : ℕ → ℝ)
    (hT : 1 ≤ c.T) (hopt : MPCOptimal c state x u) :
    (∀ x' u', MPCFeasible c state x' u' ↔ ClaimedMPCProblem c state x' u') ∧
    mpcCost c x u = (x c.T 2) ^ 2 + 1e4 * (u (c.T - 1)) ^ 2 ∧
    (MPCController.policy c state (some (x, u))).1 = some (u 0) ∧
    (MPCController.policy c state (some (x, u))).2.planned_state = some x ∧
    (MPCController.policy c state (some (x, u))).2.planned_u = some u :=
  ⟨fun x' u' => mpcFeasible_iff c state x' u', rfl, rfl, rfl, rfl⟩

/-- The all-zero primal point. -/
def xZ : ℕ → Fin 4 → ℝ := fun _ => 0

/-- The all-zero input sequence. -/
def uZ : ℕ → ℝ := fun _ => 0

/-- The zero point is feasible for `cW` from the zero state. -/
theorem cW_feasible_zero : MPCFeasible cW st0 xZ uZ := by
  rw [mpcFeasible_iff]
  refine ⟨?_, ?_, ?_⟩
  · intro k _
    show (0 : Fin 4 → ℝ) = cW.A.mulVec 0 + (0 : ℝ) • cW.B
    simp [Matrix.mulVec_zero]
  · intro k _
    show |(0 : ℝ)| ≤ cW.u_max
    norm_num [cW]
  · rfl

/-- The zero point is optimal for `cW` from the zero state: its cost is `0`
and every cost is a sum of squares. -/
theorem cW_optimal_zero : MPCOptimal cW st0 xZ uZ := by
  refine ⟨cW_feasible_zero, ?_⟩
  intro x' u' _
  unfold mpcCost
  have h0 : (xZ cW.T 2) ^ 2 + 1e4 * (uZ (cW.T - 1)) ^ 2 = 0 := by
    norm_num [xZ, uZ]
  rw [h0]
  positivity

/-- Witness for C1: the concrete horizon-1 controller `cW`, the zero state and
the zero optimal point. -/
theorem C1_policy_qp_witness :
    (MPCController.policy cW st0 (some (xZ, uZ))).1 = some (uZ 0) :=
  (C1_policy_qp cW st0 xZ uZ (by norm_num [cW]) cW_optimal_zero).2.2.1

/-! ### C6 — the covariance factorization -/

/-- The factor `chol A` is lower triangular. -/
theorem chol_eq_zero_of_lt (A : ℕ → ℕ → ℝ) {i j : ℕ} (h : i < j) :
    chol A i j = 0 := by
  conv_lhs => rw [chol]
  rw [if_pos h]

/-- The diagonal of the factor is the square root of the pivot. -/
theorem chol_diag (A : ℕ → ℕ → ℝ) (j : ℕ) :
    chol A j j = Real.sqrt (cholPivot A j) := by
  conv_lhs => rw [chol]
  rw [if_neg (lt_irrefl j), if_pos rfl]
  rfl

/-- Below the diagonal, multiplying back by the (nonzero) diagonal entry
recovers the defining relation of the factor entry. -/
theorem chol_offdiag_mul (A : ℕ → ℕ → ℝ) {i j : ℕ} (hj : j < i)
    (hne : chol A j j ≠ 0) :
    chol A i j * chol A j j = A i j - ∑ k : Fin j, chol A i k * chol A j k := by
  have h1 : ¬ i < j := by omega
  have h2 : ¬ i = j := by omega
  conv_lhs => rw [chol]
  rw [if_neg h1, if_neg h2, div_mul_cancel₀ _ hne]

/-- Correctness of the cholesky recursion in exact arithmetic: on a symmetric
matrix all of whose pivots (among the first `n`) are positive — the condition
for `np.linalg.cholesky` to succeed — the factor satisfies `L·Lᵀ = A` on the
leading `n × n` block. -/
theorem chol_mul_transpose (A : ℕ → ℕ → ℝ) (n : ℕ)
    (hsym : ∀ i j, A i j = A j i)
    (hpiv : ∀ j, j < n → 0 < cholPivot A j) :
    ∀ i j, i < n → j < n →
      ∑ k ∈ Finset.range n, chol A i k * chol A j k = A i j := by
  have aux : ∀ i j, i < n → j < n → j ≤ i →
      ∑ k ∈ Finset.range n, chol A i k * chol A j k = A i j := by
    intro i j hi hj hji
    have htr : ∑ k ∈ Finset.range n, chol A i k * chol A j k
        = ∑ k ∈ Finset.range (j + 1), chol A i k * chol A j k := by
      symm
      apply Finset.sum_subset
      · intro k hk
        simp only [Finset.mem_range] at hk ⊢
        omega
      · intro k hk1 hk2
        simp only [Finset.mem_range] at hk1 hk2
        have hjk : j < k := by omega
        rw [chol_eq_zero_of_lt A hjk, mul_zero]
    rw [htr, Finset.sum_range_succ]
    rcases eq_or_lt_of_le hji with heq | hlt
    · subst heq
      have hd : chol A j j * chol A j j = cholPivot A j := by
        rw [chol_diag]
        exact Real.mul_self_sqrt (le_of_lt (hpiv j hj))
      rw [hd]
      unfold cholPivot
      rw [Fin.sum_univ_eq_sum_range (fun k => chol A j k ^ 2) j]
      have hsq : ∑ k ∈ Finset.range j, chol A j k * chol A j k
          = ∑ k ∈ Finset.range j, chol A j k ^ 2 := by
        apply Finset.sum_congr rfl
        intro k _
        ring
      rw [hsq]
      ring
    · have hd0 : chol A j j ≠ 0 := by
        rw [chol_diag]
        exact ne_of_gt (Real.sqrt_pos.mpr (hpiv j hj))
      have hoff := chol_offdiag_mul A hlt hd0
      rw [hoff, Fin.sum_univ_eq_sum_range (fun k => chol A i k * chol A j k) j]
      ring
  intro i j hi hj
  rcases le_total j i with h | h
  · exact aux i j hi hj h
  · calc ∑ k ∈ Finset.range n, chol A i k * chol A j k
        = ∑ k ∈ Finset.range n, chol A j k * chol A i k := by
          apply Finset.sum_congr rfl
          intro k _
          ring
    _ = A j i := aux j i hj hi h
    _ = A i j := hsym j i

/-- Squared distances are symmetric. -/
theorem sqdist_comm {n : ℕ} (a b : Fin n → ℝ) : sqdist a b = sqdist b a := by
  unfold sqdist
  apply Finset.sum_congr rfl
  intro i _
  ring

/-- The regularized covariance matrix is symmetric (as a total function). -/
theorem regularizedK_symm (z : List (Fin 5 → ℝ)) (y : List (Fin 4 → ℝ)) (l : ℝ) :
    ∀ i j, regularizedK z y l i j = regularizedK z y l j i := by
  intro i j
  by_cases h : i = j
  · subst h; rfl
  · simp only [regularizedK, MPCWithGPR.apply_kernel, if_neg h, if_neg (Ne.symm h)]
    rw [sqdist_comm]

/-- Embedding of `np.var` of a 1-D list of reals (population variance). -/
def listVar (xs : List ℝ) : ℝ :=
  ((xs.map fun v => (v - xs.sum / xs.length) ^ 2).sum) / xs.length

/-- Modelled from the claim's words (one jitter value per *output dimension*,
the variance of `y` over the *sample* axis): the diagonal entry `i` is
incremented by the variance of the `i`-th column of `y` over its samples. -/
def claimRegularizedK (z : List (Fin 5 → ℝ)) (y : List (Fin 4 → ℝ)) (l : ℝ) :
    ℕ → ℕ → ℝ :=
  fun i j =>
    if i = j then
      MPCWithGPR.apply_kernel z none l i j +
        (if h : i < 4 then listVar (y.map fun r => r ⟨i, h⟩) else 0) + 1e-9
    else MPCWithGPR.apply_kernel z none l i j

/-- Claim C6 amended: `create_prior_matr` builds the Gram matrix over `z` with
the squared-exponential kernel `k(a,b) = exp(-‖a-b‖²/(2·l))` and regularizes
it by adding to diagonal entry `i` the variance of the `i`-th *sample row* of
`y`, taken over the output-dimension axis (`np.var(y, axis=1)` — one jitter
value per training sample, not per output dimension), plus `1e-9`; provided
every pivot of the factorization is positive (the condition for
`np.linalg.cholesky` to succeed), it returns a lower-triangular `L` with
`L·Lᵀ` equal to the regularized matrix. -/
theorem C6_create_prior_matr (z : List (Fin 5 → ℝ)) (y : List (Fin 4 → ℝ)) (l : ℝ)
    (hpiv : ∀ j, j < z.length → 0 < cholPivot (regularizedK z y l) j) :
    (∀ i j, i ≠ j →
      MPCWithGPR.apply_kernel z none l i j =
        Real.exp (-(sqdist (z.getD i 0) (z.getD j 0)) / (2 * l))) ∧
    (∀ i, regularizedK z y l i i =
      MPCWithGPR.apply_kernel z none l i i + npVar (y.getD i 0) + 1e-9) ∧
    (∀ i j, i < j → MPCWithGPR.create_prior_matr z y l i j = 0) ∧
    (∀ i j, i < z.length → j < z.length →
      ∑ k ∈ Finset.range z.length,
        MPCWithGPR.create_prior_matr z y l i k *
          MPCWithGPR.create_prior_matr z y l j k
        = regularizedK z y l i j) := by
  refine ⟨?_, ?_, ?_, ?_⟩
  · intro i j hij
    show (if i = j then (1 : ℝ) else Real.exp _) = _
    rw [if_neg hij]
    congr 1
    rcases eq_or_ne l 0 with rfl | hl
    · norm_num
    · field_simp
      ring
  · intro i
    simp [regularizedK]
  · intro i j h
    exact chol_eq_zero_of_lt _ h
  · exact chol_mul_transpose (regularizedK z y l) z.length
      (regularizedK_symm z y l) hpiv

/-- The all-zero 4-row. -/
def y0 : Fin 4 → ℝ := fun _ => 0

/-- The all-two 4-row. -/
def y2 : Fin 4 → ℝ := fun _ => 2

/-- One-sample training input. -/
def z1 : List (Fin 5 → ℝ) := [0]

/-- One-sample residuals (the zero row). -/
def y1 : List (Fin 4 → ℝ) := [y0]

/-- Witness for C6 (amended), at the one-sample training set `z1`, `y1`:
here the single pivot is `1 + 0 + 1e-9 > 0`, and `L·Lᵀ` recovers the
regularized matrix at the only entry. -/
theorem C6_create_prior_matr_witness :
    ∑ k ∈ Finset.range z1.length,
      MPCWithGPR.create_prior_matr z1 y1 1 0 k *
        MPCWithGPR.create_prior_matr z1 y1 1 0 k
      = regularizedK z1 y1 1 0 0 :=
  (C6_create_prior_matr z1 y1 1 (by
    intro j hj
    have hj0 : j = 0 := by
      have : z1.length = 1 := rfl
      omega
    subst hj0
    have hp : cholPivot (regularizedK z1 y1 1) 0 = regularizedK z1 y1 1 0 0 := by
      unfold cholPivot
      simp
    rw [hp]
    have hK : regularizedK z1 y1 1 0 0 = 1 + 0 + 1e-9 := by
      simp [regularizedK, MPCWithGPR.apply_kernel, npVar, z1, y1, y0]
    rw [hK]
    norm_num)).2.2.2 0 0 (by norm_num [z1]) (by norm_num [z1])

/-- Four identical training inputs (all-zero rows): the Gram matrix is the
all-ones matrix. -/
def zc : List (Fin 5 → ℝ) := [0, 0, 0, 0]

/-- Four residual rows whose per-row variance is `0` but whose per-column
variance over the samples is `1`. -/
def yc : List (Fin 4 → ℝ) := [y0, y2, y0, y2]

/-- Claim C6 counterexample: at `zc`, `yc` the code regularizes the diagonal by
`np.var(y, axis=1) + 1e-9` — the variance over the *output* axis, `0` for each
row here — so `(L·Lᵀ)[0][0] = 1 + 1e-9`; the claim's regularization (variance
over the *sample* axis, `1` for each column here) would give `2 + 1e-9`.
The claimed identity `L·Lᵀ = (claimed regularized matrix)` fails at entry
`(0,0)`. -/
theorem C6_counterexample :
    ¬ (∑ k ∈ Finset.range zc.length,
        MPCWithGPR.create_prior_matr zc yc 1 0 k *
          MPCWithGPR.create_prior_matr zc yc 1 0 k
        = claimRegularizedK zc yc 1 0 0) := by
  have hlen : zc.length = 4 := rfl
  have h1 : MPCWithGPR.create_prior_matr zc yc 1 0 1 = 0 :=
    chol_eq_zero_of_lt _ (by norm_num)
  have h2 : MPCWithGPR.create_prior_matr zc yc 1 0 2 = 0 :=
    chol_eq_zero_of_lt _ (by norm_num)
  have h3 : MPCWithGPR.create_prior_matr zc yc 1 0 3 = 0 :=
    chol_eq_zero_of_lt _ (by norm_num)
  have hK00 : regularizedK zc yc 1 0 0 = 1 + 0 + 1e-9 := by
    simp [regularizedK, MPCWithGPR.apply_kernel, npVar, zc, yc, y0]
  have hdiag : MPCWithGPR.create_prior_matr zc yc 1 0 0 *
      MPCWithGPR.create_prior_matr zc yc 1 0 0 = 1 + 0 + 1e-9 := by
    show chol (regularizedK zc yc 1) 0 0 * chol (regularizedK zc yc 1) 0 0 = _
    rw [chol_diag]
    have hp : cholPivot (regularizedK zc yc 1) 0 = regularizedK zc yc 1 0 0 := by
      unfold cholPivot
      simp
    rw [Real.mul_self_sqrt (by rw [hp, hK00]; norm_num), hp, hK00]
  have hsum : ∑ k ∈ Finset.range zc.length,
      MPCWithGPR.create_prior_matr zc yc 1 0 k *
        MPCWithGPR.create_prior_matr zc yc 1 0 k = 1 + 0 + 1e-9 := by
    rw [hlen, Finset.sum_range_succ, Finset.sum_range_succ, Finset.sum_range_succ,
      Finset.sum_range_one, h1, h2, h3, hdiag]
    ring
  have hclaim : claimRegularizedK zc yc 1 0 0 = 1 + 1 + 1e-9 := by
    have hcol : (yc.map fun r => r (⟨0, by norm_num⟩ : Fin 4)) = [0, 2, 0, 2] := by
      simp [yc, y0, y2]
    simp only [claimRegularizedK, if_pos rfl]
    rw [dif_pos (by norm_num : (0 : ℕ) < 4), hcol]
    have hv : listVar [0, 2, 0, 2] = 1 := by
      simp [listVar]
      norm_num
    rw [hv]
    simp [MPCWithGPR.apply_kernel]
  rw [hsum, hclaim]
  norm_num

end
